import Mathlib

/-!
Verification development for the animation timeline / playback core of the
FileCompressionWebApp repository (the AnimationStudio sources).

The JavaScript sources are shallowly embedded:
- times and other JS numbers become exact rationals;
- JS objects used as property bags become association lists in key insertion
  order, with JS property access modelled by first-match lookup;
- the per-object keyframe array of Timeline (src/js/core/timeline.js) becomes
  a list of keyframe records, with Array.prototype.sort modelled by a stable
  insertion sort on the time comparator;
- the stateful PlaybackEngine (src/unnamed/part_005) becomes a record of its
  fields with each method a pure state-transition function, wall-clock reads
  of performance.now() becoming an explicit argument.
-/

/-- A JS value stored in a keyframe property bag: a number, a string,
a boolean, or the JS undefined value (which property access on a missing
key produces). -/
inductive PropValue where
  | num (v : ℚ)
  | str (s : String)
  | boolean (b : Bool)
  | undef
  deriving DecidableEq

/-- A JS property-bag object, as an association list in key insertion order. -/
abbrev Props : Type := List (String × PropValue)

/-- First-match association-list lookup, modelling JS property access on an
object built by inserting the listed keys in order. -/
def lookupProp : Props → String → Option PropValue
  | [], _ => none
  | (k2, v) :: rest, k => if k2 = k then some v else lookupProp rest k

/-- Models the JS `in` test for key presence in a property bag. -/
def containsKey (props : Props) (k : String) : Bool :=
  (lookupProp props k).isSome

/-- JS property read: the stored value, or undefined when the key is absent. -/
def jsGet (props : Props) (k : String) : PropValue :=
  (lookupProp props k).getD PropValue.undef

/-- A keyframe record as built by Timeline.addKeyframe
(src/js/core/timeline.js lines 148-156). The id string generated by
generateKeyframeId is modelled as a number supplied by the caller. -/
structure Keyframe where
  id : Nat
  objectId : String
  time : ℚ
  properties : Props
  easingType : String
  easingParams : List (String × ℚ)
  selected : Bool
  deriving DecidableEq

/-- Timeline.applyEasing (src/js/core/timeline.js lines 355-388). -/
def applyEasing (progress : ℚ) (easingType : String) : ℚ :=
  if easingType = "linear" then progress
  else if easingType = "easeIn" then progress * progress
  else if easingType = "easeOut" then 1 - (1 - progress) ^ 2
  else if easingType = "easeInOut" then
    if progress < 1/2 then 2 * progress * progress
    else 1 - (-2 * progress + 2) ^ 2 / 2
  else if easingType = "bounce" then
    let n1 : ℚ := 7.5625
    let d1 : ℚ := 2.75
    if progress < 1 / d1 then n1 * progress * progress
    else if progress < 2 / d1 then
      let p := progress - 1.5 / d1
      n1 * p * p + 0.75
    else if progress < 2.5 / d1 then
      let p := progress - 2.25 / d1
      n1 * p * p + 0.9375
    else
      let p := progress - 2.625 / d1
      n1 * p * p + 0.984375
  else progress

/-- One property's interpolated value, from the body of the first loop of
Timeline.interpolateProperties (src/js/core/timeline.js lines 333-343):
numeric pairs interpolate linearly in the eased progress, any other pair
(including an absent, hence undefined, end value) uses the step rule. -/
def interpValue (easedProgress : ℚ) (sv ev : PropValue) : PropValue :=
  match sv, ev with
  | PropValue.num a, PropValue.num b => PropValue.num (a + (b - a) * easedProgress)
  | _, _ => if easedProgress < 1/2 then sv else ev

/-- Timeline.interpolateProperties (src/js/core/timeline.js lines 328-353):
every key of the start bag is written with its interpolated value, then every
key of the end bag not already present is passed through as-is. -/
def interpolateProperties (startProps endProps : Props) (progress : ℚ)
    (easingType : String) : Props :=
  let easedProgress := applyEasing progress easingType
  let base : Props :=
    startProps.map (fun p => (p.1, interpValue easedProgress p.2 (jsGet endProps p.1)))
  base ++ endProps.filter (fun q => !(containsKey startProps q.1))

/-- The bracketing-pair scan of Timeline.getObjectStateAtTime
(src/js/core/timeline.js lines 300-310): the first adjacent pair (a, b)
with a.time at or before the query and b.time at or after it. -/
def findBracket : List Keyframe → ℚ → Option (Keyframe × Keyframe)
  | a :: b :: rest, time =>
      if a.time ≤ time ∧ time ≤ b.time then some (a, b)
      else findBracket (b :: rest) time
  | _, _ => none

/-- The last element of a keyframe array read as arr[arr.length - 1],
with a default when the list is empty. -/
def lastD (d : Keyframe) : List Keyframe → Keyframe
  | [] => d
  | b :: rest => lastD b rest

/-- Timeline.getObjectStateAtTime (src/js/core/timeline.js lines 284-326),
acting on the keyframe array of one object: clamp-hold outside the keyframe
range, otherwise interpolate between the bracketing pair using the earlier
keyframe's easing. -/
def getObjectStateAtTime (arr : List Keyframe) (time : ℚ) : Option Props :=
  match arr with
  | [] => none
  | first :: rest =>
    let lastKf := lastD first rest
    if time ≤ first.time then some first.properties
    else if time ≥ lastKf.time then some lastKf.properties
    else
      match findBracket (first :: rest) time with
      | some (a, b) =>
          let dur := b.time - a.time
          let progress := if dur > 0 then (time - a.time) / dur else 0
          some (interpolateProperties a.properties b.properties progress a.easingType)
      | none => some first.properties

/-- The epsilon test of Timeline.addKeyframe (src/js/core/timeline.js line
146): a stored keyframe collides with the requested time when their distance
is strictly below 0.01. -/
def isHit (time : ℚ) (kf : Keyframe) : Prop := |kf.time - time| < 1/100

instance (time : ℚ) (kf : Keyframe) : Decidable (isHit time kf) :=
  inferInstanceAs (Decidable (|kf.time - time| < 1/100))

/-- The findIndex scan of Timeline.addKeyframe (src/js/core/timeline.js line
146), returning the first keyframe within epsilon of the requested time. -/
def findHit (time : ℚ) : List Keyframe → Option Keyframe
  | [] => none
  | kf :: rest => if isHit time kf then some kf else findHit time rest

/-- The in-place overwrite of Timeline.addKeyframe (src/js/core/timeline.js
line 161): the element at the index found by findIndex, that is the first
keyframe within epsilon of the requested time, is replaced. -/
def replaceHit (time : ℚ) (new : Keyframe) : List Keyframe → List Keyframe
  | [] => []
  | kf :: rest => if isHit time kf then new :: rest else kf :: replaceHit time new rest

/-- The number of stored keyframes within epsilon of a given time. -/
def countHits (time : ℚ) : List Keyframe → Nat
  | [] => 0
  | kf :: rest => (if isHit time kf then 1 else 0) + countHits time rest

/-- The comparator of the sort call in Timeline.addKeyframe
(src/js/core/timeline.js line 165), comparing keyframes by time. -/
def timeLE (a b : Keyframe) : Prop := a.time ≤ b.time

instance : DecidableRel timeLE := fun a b => inferInstanceAs (Decidable (a.time ≤ b.time))

instance : IsTotal Keyframe timeLE := ⟨fun a b => le_total a.time b.time⟩

instance : IsTrans Keyframe timeLE := ⟨fun _ _ _ hab hbc => le_trans hab hbc⟩

/-- The array sort of Timeline.addKeyframe (src/js/core/timeline.js line 165),
a stable sort ascending by keyframe time. -/
def sortByTime (arr : List Keyframe) : List Keyframe :=
  List.insertionSort timeLE arr

/-- The fresh keyframe record built by Timeline.addKeyframe
(src/js/core/timeline.js lines 148-156): default linear easing, empty easing
parameters and cleared selection; the generated id string is modelled as the
supplied newId. -/
def freshKeyframe (objectId : String) (newId : Nat) (time : ℚ) (properties : Props) :
    Keyframe :=
  { id := newId, objectId := objectId, time := time, properties := properties,
    easingType := "linear", easingParams := [], selected := false }

/-- Timeline.addKeyframe (src/js/core/timeline.js lines 131-177) acting on the
keyframe array of one object: the fresh keyframe record is built; if an
existing keyframe lies within epsilon of the requested time it is overwritten
in place keeping only its id, otherwise the fresh keyframe is appended and
the array re-sorted by time. Track bookkeeping (lines 132-136 and 169) only
touches the tracks map, not this array. Returns the resulting keyframe
together with the updated array. -/
def addKeyframe (objectId : String) (newId : Nat) (time : ℚ) (properties : Props)
    (arr : List Keyframe) : Keyframe × List Keyframe :=
  let keyframe : Keyframe := freshKeyframe objectId newId time properties
  match findHit time arr with
  | some existing =>
      let merged := { keyframe with id := existing.id }
      (merged, replaceHit time merged arr)
  | none => (keyframe, sortByTime (arr ++ [keyframe]))

/-- One addKeyframe request: the generated id, the requested time and the
requested properties. -/
structure AddReq where
  newId : Nat
  time : ℚ
  properties : Props
  deriving DecidableEq

/-- A sequence of Timeline.addKeyframe calls for one object, applied in order
to that object's keyframe array; getKeyframesForObject
(src/js/core/timeline.js lines 202-204) returns the resulting array as is. -/
def runAdds (objectId : String) : List AddReq → List Keyframe → List Keyframe
  | [], arr => arr
  | r :: rest, arr =>
      runAdds objectId rest (addKeyframe objectId r.newId r.time r.properties arr).2

/-- The keyframe of object A at time 0 with x = 0 and easeIn easing, for the
spec scenario of claim C1. -/
def kfA0 : Keyframe :=
  { id := 1, objectId := "A", time := 0, properties := [("x", PropValue.num 0)],
    easingType := "easeIn", easingParams := [], selected := false }

/-- The keyframe of object A at time 2 with x = 200, for the spec scenario of
claim C1. -/
def kfA2 : Keyframe :=
  { id := 2, objectId := "A", time := 2, properties := [("x", PropValue.num 200)],
    easingType := "linear", easingParams := [], selected := false }

/-- A stored keyframe with customized easing and selection, used to witness
claim C10. -/
def kfCustom : Keyframe :=
  { id := 7, objectId := "A", time := 2, properties := [("x", PropValue.num 1)],
    easingType := "bounce", easingParams := [("strength", 2)], selected := true }

/-- The request sequence of the counterexample to C2: two separated inserts at
times 0 and 0.015, then two adds at time 0.008 with different properties. -/
def c2reqs : List AddReq :=
  [{ newId := 1, time := 0, properties := [("x", PropValue.num 0)] },
   { newId := 2, time := 15/1000, properties := [("x", PropValue.num 0)] }]

/-- The request sequence of the counterexample to C3: inserts at times 0 and
0.015, an epsilon overwrite dragging the first keyframe to 0.0059, and a
second overwrite dragging it to 0.0155, past its neighbour at 0.015. -/
def c3reqs : List AddReq :=
  [{ newId := 1, time := 0, properties := [("x", PropValue.num 0)] },
   { newId := 2, time := 15/1000, properties := [("x", PropValue.num 0)] },
   { newId := 3, time := 59/10000, properties := [("x", PropValue.num 0)] },
   { newId := 4, time := 155/10000, properties := [("x", PropValue.num 0)] }]

/-- The keyframe at time 0 with x = 0 of the clamp-hold scenario of claim
C4. -/
def kfB0 : Keyframe :=
  { id := 1, objectId := "B", time := 0, properties := [("x", PropValue.num 0)],
    easingType := "linear", easingParams := [], selected := false }

/-- The keyframe at time 5 with x = 100 of the clamp-hold scenario of claim
C4. -/
def kfB5 : Keyframe :=
  { id := 2, objectId := "B", time := 5, properties := [("x", PropValue.num 100)],
    easingType := "linear", easingParams := [], selected := false }

/-- The start keyframe of the claim C9 scenario: time 0, only x defined. -/
def kfE0 : Keyframe :=
  { id := 1, objectId := "E", time := 0, properties := [("x", PropValue.num 0)],
    easingType := "linear", easingParams := [], selected := false }

/-- The end keyframe of the claim C9 scenario: time 2, with x and the
end-only key y. -/
def kfE2 : Keyframe :=
  { id := 2, objectId := "E", time := 2,
    properties := [("x", PropValue.num 100), ("y", PropValue.num 5)],
    easingType := "linear", easingParams := [], selected := false }

/-- A track record as built by Timeline.createTrack (src/js/core/timeline.js
lines 78-98). -/
structure Track where
  id : String
  objectId : String
  name : String
  visible : Bool
  locked : Bool
  color : String
  keyframeCount : Nat
  deriving DecidableEq

/-- JS Map.prototype.set on a map modelled as an association list in key
insertion order: an existing key keeps its position and receives the new
value, a new key is appended. -/
def mapSet {α : Type} (k : String) (v : α) : List (String × α) → List (String × α)
  | [] => [(k, v)]
  | (k2, v2) :: rest => if k2 = k then (k2, v) :: rest else (k2, v2) :: mapSet k v rest

/-- The Timeline state (src/js/core/timeline.js constructor, lines 6-25):
duration, fps, currentTime and isPlaying, plus the tracks and keyframes Maps
as association lists in insertion order. -/
structure TimelineState where
  duration : ℚ
  fps : ℚ
  currentTime : ℚ
  isPlaying : Bool
  tracks : List (String × Track)
  keyframes : List (String × List Keyframe)
  deriving DecidableEq

/-- The payload built by Timeline.exportTimelineData (src/js/core/timeline.js
lines 476-485): duration, fps, and the entries of the two Maps. -/
structure TimelineData where
  duration : ℚ
  fps : ℚ
  tracks : List (String × Track)
  keyframes : List (String × List Keyframe)
  deriving DecidableEq

/-- Timeline.exportTimelineData (src/js/core/timeline.js lines 476-485). -/
def exportTimelineData (s : TimelineState) : TimelineData :=
  { duration := s.duration, fps := s.fps, tracks := s.tracks, keyframes := s.keyframes }

/-- Timeline.importTimelineData (src/js/core/timeline.js lines 487-509):
duration and fps fall back to 10 and 30 when the imported number is falsy
(0), currentTime resets to 0, and both Maps are cleared and refilled with
Map.set over the imported entries in order. -/
def importTimelineData (s : TimelineState) (data : TimelineData) : TimelineState :=
  { s with
    duration := if data.duration ≠ 0 then data.duration else 10,
    fps := if data.fps ≠ 0 then data.fps else 30,
    currentTime := 0,
    tracks := data.tracks.foldl (fun m kv => mapSet kv.1 kv.2 m) [],
    keyframes := data.keyframes.foldl (fun m kv => mapSet kv.1 kv.2 m) [] }

/-- A demonstration track for the claim C6 witness. -/
def demoTrack : Track :=
  { id := "t1", objectId := "A", name := "Track 1", visible := true,
    locked := false, color := "#FF6B6B", keyframeCount := 2 }

/-- A concrete timeline state for the claim C6 witness. -/
def c6state : TimelineState :=
  { duration := 10, fps := 30, currentTime := 3, isPlaying := false,
    tracks := [("t1", demoTrack)], keyframes := [("A", [kfA0, kfA2])] }

/-- The PlaybackEngine state (src/unnamed/part_005, constructor lines 6-30)
together with the two timeline fields it reads and writes through
this.timeline: currentTime and duration. The canvas engine, the DOM and the
requestAnimationFrame handle are external and carry no modelled state. -/
structure EngineState where
  isPlaying : Bool
  isPaused : Bool
  playbackStartTime : ℚ
  lastUpdateTime : ℚ
  playbackSpeed : ℚ
  loop : Bool
  frameCount : Nat
  lastFPSUpdate : ℚ
  currentFPS : ℤ
  currentTime : ℚ
  duration : ℚ
  deriving DecidableEq

/-- Timeline.setCurrentTime (src/js/core/timeline.js lines 28-38): clamps the
requested time into the interval from 0 to the duration; the dispatched
timeChanged event is external. -/
def timelineSetCurrentTime (s : EngineState) (time : ℚ) : EngineState :=
  { s with currentTime := max 0 (min s.duration time) }

/-- PlaybackEngine.setCurrentTime (src/unnamed/part_005 lines 115-124): clamps
the time and forwards it to Timeline.setCurrentTime; updating the canvas
objects and re-rendering are external side effects. -/
def engineSetCurrentTime (s : EngineState) (time : ℚ) : EngineState :=
  let clampedTime := max 0 (min s.duration time)
  timelineSetCurrentTime s clampedTime

/-- PlaybackEngine.play (src/unnamed/part_005 lines 49-67): a no-op while
already playing; otherwise starts playback and records the playback epoch
from the current wall-clock reading, supplied as now. -/
def enginePlay (s : EngineState) (now : ℚ) : EngineState :=
  if s.isPlaying then s
  else
    { s with
      isPlaying := true, isPaused := false,
      playbackStartTime := now - s.currentTime * 1000 / s.playbackSpeed,
      lastUpdateTime := now }

/-- PlaybackEngine.pause (src/unnamed/part_005 lines 69-85): a no-op while not
playing; otherwise transitions to the paused state. -/
def enginePause (s : EngineState) : EngineState :=
  if !s.isPlaying then s
  else { s with isPlaying := false, isPaused := true }

/-- PlaybackEngine.stop (src/unnamed/part_005 lines 87-104): clears the
playing and paused flags and resets the current time to 0. -/
def engineStop (s : EngineState) : EngineState :=
  engineSetCurrentTime { s with isPlaying := false, isPaused := false } 0

/-- PlaybackEngine.updateFPSCounter (src/unnamed/part_005 lines 302-310). -/
def updateFPSCounter (s : EngineState) (now : ℚ) : EngineState :=
  let s1 := { s with frameCount := s.frameCount + 1 }
  if now - s1.lastFPSUpdate ≥ 1000 then
    { s1 with
      currentFPS := round ((s1.frameCount : ℚ) * 1000 / (now - s1.lastFPSUpdate)),
      frameCount := 0, lastFPSUpdate := now }
  else s1

/-- One tick of PlaybackEngine.animationLoop (src/unnamed/part_005 lines
163-195) at wall-clock reading now: when playing, the elapsed timeline time
is computed from the playback epoch; on reaching the duration the loop flag
selects between resetting the epoch and the current time to 0 or stopping at
the end (the non-loop branch returns before the FPS bookkeeping); otherwise
the current time follows the elapsed time. Scheduling the next frame is
external. -/
def animationLoop (s : EngineState) (now : ℚ) : EngineState :=
  if !s.isPlaying then s
  else
    let elapsed := (now - s.playbackStartTime) * s.playbackSpeed / 1000
    if elapsed ≥ s.duration then
      if s.loop then
        let s1 := engineSetCurrentTime { s with playbackStartTime := now } 0
        { updateFPSCounter s1 now with lastUpdateTime := now }
      else
        engineStop (engineSetCurrentTime s s.duration)
    else
      let s1 := engineSetCurrentTime s elapsed
      { updateFPSCounter s1 now with lastUpdateTime := now }

/-- A concrete playing, looping engine state for the claim C7 witness:
duration 5, speed 1, epoch at wall-clock 0. -/
def c7state : EngineState :=
  { isPlaying := true, isPaused := false, playbackStartTime := 0,
    lastUpdateTime := 0, playbackSpeed := 1, loop := true, frameCount := 0,
    lastFPSUpdate := 0, currentFPS := 0, currentTime := 4, duration := 5 }

/-- A captured frame of PlaybackEngine.exportFrames (src/unnamed/part_005
lines 421-426): its time, its index and the data URL string. -/
structure Frame where
  time : ℚ
  frame : Nat
  data : String
  deriving DecidableEq

/-- The frame loop of PlaybackEngine.exportFrames (src/unnamed/part_005 lines
413-435), with the remaining iteration count as fuel: each iteration moves
the engine to the frame time and invokes the external frame capture
(canvas.toDataURL), which may fail; a failure aborts the loop with the error,
as a thrown exception does. -/
def exportLoop (capture : Nat → ℚ → Except String String) (startTime frameTime : ℚ) :
    Nat → Nat → EngineState → List Frame → EngineState × Except String (List Frame)
  | 0, _, s, acc => (s, Except.ok acc)
  | n + 1, i, s, acc =>
      let time := startTime + i * frameTime
      let s1 := engineSetCurrentTime s time
      match capture i time with
      | Except.ok d =>
          exportLoop capture startTime frameTime n (i + 1) s1
            (acc ++ [{ time := time, frame := i, data := d }])
      | Except.error e => (s1, Except.error e)

/-- The finally block of PlaybackEngine.exportFrames (src/unnamed/part_005
lines 436-442): restore the original time and, when playback was running
before the pass, resume it. -/
def exportFinally (wasPlaying : Bool) (originalTime now : ℚ) (s1 : EngineState) :
    EngineState :=
  let s2 := engineSetCurrentTime s1 originalTime
  if wasPlaying then enginePlay s2 now else s2

/-- PlaybackEngine.exportFrames (src/unnamed/part_005 lines 392-445): records
the playing flag and the current time, pauses when playing, runs the frame
loop over ceil of the range length times fps frames, and in a finally block
restores the original time and playback state whether the loop completed or
failed. The progress callback and the one-millisecond yields are external.
Returns the final state and the loop outcome. -/
def exportFrames (capture : Nat → ℚ → Except String String)
    (startTime endTime fps now : ℚ) (s : EngineState) :
    EngineState × Except String (List Frame) :=
  let frameTime := 1 / fps
  let totalFrames := (Int.ceil ((endTime - startTime) * fps)).toNat
  let wasPlaying := s.isPlaying
  let originalTime := s.currentTime
  let s0 := if wasPlaying then enginePause s else s
  let res := exportLoop capture startTime frameTime totalFrames 0 s0 []
  (exportFinally wasPlaying originalTime now res.1, res.2)

/-- A concrete playing engine state for the claim C8 witness. -/
def c8state : EngineState :=
  { isPlaying := true, isPaused := false, playbackStartTime := 0,
    lastUpdateTime := 0, playbackSpeed := 1, loop := false, frameCount := 0,
    lastFPSUpdate := 0, currentFPS := 0, currentTime := 3, duration := 10 }

/-- A frame capture for the claim C8 witness that succeeds on frame 0 and
fails on every later frame, standing for an error thrown mid-pass. -/
def c8capture (i : Nat) (_ : ℚ) : Except String String :=
  if i = 0 then Except.ok "frame0" else Except.error "boom"

/-- C1: with keyframes at time 0 (x = 0, easing easeIn) and time 2 (x = 200),
querying the object state at time 1 yields progress 1/2, eased progress 1/4,
and the property bag with x = 50. -/
theorem c1_easeIn_midpoint :
    getObjectStateAtTime [kfA0, kfA2] 1 = some [("x", PropValue.num 50)] := by
  norm_num [getObjectStateAtTime, findBracket, lastD, interpolateProperties, interpValue,
    jsGet, lookupProp, containsKey, applyEasing, kfA0, kfA2]
  decide

theorem findHit_eq_none_iff (t : ℚ) (l : List Keyframe) :
    findHit t l = none ↔ ∀ kf ∈ l, ¬ isHit t kf := by
  induction l with
  | nil => simp [findHit]
  | cons kf rest ih =>
      by_cases h : isHit t kf
      · simp [findHit, h]
      · simp [findHit, h, ih]

theorem findHit_isHit {t : ℚ} {l : List Keyframe} {kf : Keyframe}
    (h : findHit t l = some kf) : isHit t kf := by
  induction l with
  | nil => simp [findHit] at h
  | cons a rest ih =>
      by_cases ha : isHit t a
      · simp [findHit, ha] at h
        exact h ▸ ha
      · simp [findHit, ha] at h
        exact ih h

theorem findHit_mem {t : ℚ} {l : List Keyframe} {kf : Keyframe}
    (h : findHit t l = some kf) : kf ∈ l := by
  induction l with
  | nil => simp [findHit] at h
  | cons a rest ih =>
      by_cases ha : isHit t a
      · simp [findHit, ha] at h
        simp [h]
      · simp [findHit, ha] at h
        exact List.mem_cons_of_mem a (ih h)

theorem countHits_eq_zero_iff (t : ℚ) (l : List Keyframe) :
    countHits t l = 0 ↔ ∀ kf ∈ l, ¬ isHit t kf := by
  induction l with
  | nil => simp [countHits]
  | cons kf rest ih =>
      by_cases h : isHit t kf
      · simp [countHits, h]
      · simp [countHits, h, ih]

theorem countHits_append (t : ℚ) (l1 l2 : List Keyframe) :
    countHits t (l1 ++ l2) = countHits t l1 + countHits t l2 := by
  induction l1 with
  | nil => simp [countHits]
  | cons kf rest ih => simp [countHits, ih]; omega

theorem countHits_perm {l1 l2 : List Keyframe} (h : List.Perm l1 l2) (t : ℚ) :
    countHits t l1 = countHits t l2 := by
  induction h with
  | nil => rfl
  | cons x _ ih => simp [countHits, ih]
  | swap x y l => simp [countHits]; omega
  | trans _ _ ih1 ih2 => exact ih1.trans ih2

theorem countHits_pos {t : ℚ} {l : List Keyframe} {kf : Keyframe}
    (hmem : kf ∈ l) (hhit : isHit t kf) : 1 ≤ countHits t l := by
  induction l with
  | nil => simp at hmem
  | cons a rest ih =>
      rcases List.mem_cons.mp hmem with rfl | hmem2
      · simp [countHits, hhit]
      · have := ih hmem2
        simp [countHits]
        omega

theorem countHits_replaceHit {t : ℚ} {l : List Keyframe} {a v : Keyframe}
    (h : findHit t l = some a) (hv : isHit t v) :
    countHits t (replaceHit t v l) = countHits t l := by
  induction l with
  | nil => simp [findHit] at h
  | cons kf rest ih =>
      by_cases hk : isHit t kf
      · simp [replaceHit, countHits, hk, hv]
      · simp [findHit, hk] at h
        simp [replaceHit, countHits, hk, ih h]

theorem mem_replaceHit {t : ℚ} {l : List Keyframe} {v kf : Keyframe}
    (h : kf ∈ replaceHit t v l) : kf = v ∨ kf ∈ l := by
  induction l with
  | nil => simp [replaceHit] at h
  | cons a rest ih =>
      by_cases ha : isHit t a
      · simp [replaceHit, ha] at h
        rcases h with rfl | hmem
        · exact Or.inl rfl
        · exact Or.inr (List.mem_cons_of_mem a hmem)
      · simp [replaceHit, ha] at h
        rcases h with rfl | hmem
        · exact Or.inr (List.mem_cons_self kf rest)
        · rcases ih hmem with hv | hl
          · exact Or.inl hv
          · exact Or.inr (List.mem_cons_of_mem a hl)

theorem mem_replaceHit_self {t : ℚ} {l : List Keyframe} {a v : Keyframe}
    (h : findHit t l = some a) : v ∈ replaceHit t v l := by
  induction l with
  | nil => simp [findHit] at h
  | cons kf rest ih =>
      by_cases hk : isHit t kf
      · simp [replaceHit, hk]
      · simp [findHit, hk] at h
        simp [replaceHit, hk, ih h]

theorem replaceHit_hits_eq {t : ℚ} {l : List Keyframe} {v : Keyframe}
    (hc : countHits t l ≤ 1) :
    ∀ kf ∈ replaceHit t v l, isHit t kf → kf = v := by
  induction l with
  | nil => simp [replaceHit]
  | cons a rest ih =>
      by_cases ha : isHit t a
      · intro kf hmem hhit
        simp [replaceHit, ha] at hmem
        rcases hmem with rfl | hmem2
        · rfl
        · exfalso
          simp [countHits, ha] at hc
          exact (countHits_eq_zero_iff t rest).mp hc kf hmem2 hhit
      · intro kf hmem hhit
        simp [replaceHit, ha] at hmem
        rcases hmem with rfl | hmem2
        · exact absurd hhit ha
        · refine ih ?_ kf hmem2 hhit
          simp [countHits, ha] at hc
          omega

theorem findHit_of_unique {t : ℚ} {l : List Keyframe} {v : Keyframe}
    (hmem : v ∈ l) (hhit : isHit t v)
    (huniq : ∀ kf ∈ l, isHit t kf → kf = v) : findHit t l = some v := by
  induction l with
  | nil => simp at hmem
  | cons a rest ih =>
      by_cases ha : isHit t a
      · have hav : a = v := huniq a (List.mem_cons_self a rest) ha
        subst hav
        simp [findHit, ha]
      · have hvr : v ∈ rest := by
          rcases List.mem_cons.mp hmem with rfl | h2
          · exact absurd hhit ha
          · exact h2
        simp [findHit, ha]
        exact ih hvr fun kf hk => huniq kf (List.mem_cons_of_mem a hk)

/-- C10: when addKeyframe overwrites a keyframe within epsilon of the given
time, every field except the id is replaced with fresh defaults: the stored
keyframe carries the new time and properties, easingType linear, empty
easingParams and selected false, regardless of the previous keyframe's easing
or selection, and only the previous id survives. -/
theorem c10_overwrite_resets_fields (oid : String) (newId : Nat) (t : ℚ)
    (props : Props) (arr : List Keyframe) (existing : Keyframe)
    (h : findHit t arr = some existing) :
    (addKeyframe oid newId t props arr).1 =
      { id := existing.id, objectId := oid, time := t, properties := props,
        easingType := "linear", easingParams := [], selected := false } ∧
    (addKeyframe oid newId t props arr).2 =
      replaceHit t (addKeyframe oid newId t props arr).1 arr := by
  simp [addKeyframe, freshKeyframe, h]

/-- Witness for C10: overwriting the customized keyframe at time 2 discards
its bounce easing, its easing parameters and its selection. -/
theorem c10_overwrite_resets_fields_witness :
    (addKeyframe "A" 9 2 [("x", PropValue.num 5)] [kfCustom]).1 =
      { id := 7, objectId := "A", time := 2, properties := [("x", PropValue.num 5)],
        easingType := "linear", easingParams := [], selected := false } ∧
    (addKeyframe "A" 9 2 [("x", PropValue.num 5)] [kfCustom]).2 =
      replaceHit 2 (addKeyframe "A" 9 2 [("x", PropValue.num 5)] [kfCustom]).1 [kfCustom] :=
  c10_overwrite_resets_fields "A" 9 2 [("x", PropValue.num 5)] [kfCustom] kfCustom
    (by norm_num [findHit, isHit, kfCustom])

/-- Counterexample to C5: addKeyframe stores the requested time without any
clamping, so with the default duration 10 a call at time -1 stores a keyframe
whose time is -1, which is negative. -/
theorem c5_counterexample :
    ((addKeyframe "A" 1 (-1) [("x", PropValue.num 0)] []).2.map Keyframe.time) = [-1] ∧
    ((-1 : ℚ) < 0) := by
  norm_num [addKeyframe, freshKeyframe, findHit, sortByTime]

/-- C5 as amended: addKeyframe stores the given time unclamped, so the
returned keyframe's time equals the time argument exactly, even when it is
negative or exceeds the duration, and every keyframe of the updated array
either carries the argument time or was already stored. -/
theorem c5_amended_time_unclamped (oid : String) (newId : Nat) (t : ℚ)
    (props : Props) (arr : List Keyframe) :
    (addKeyframe oid newId t props arr).1.time = t ∧
    ∀ kf ∈ (addKeyframe oid newId t props arr).2, kf.time = t ∨ kf ∈ arr := by
  cases h : findHit t arr with
  | none =>
      constructor
      · simp [addKeyframe, freshKeyframe, h]
      · intro kf hmem
        simp only [addKeyframe, h] at hmem
        have hperm := List.perm_insertionSort timeLE
          (arr ++ [freshKeyframe oid newId t props])
        have hkf := hperm.mem_iff.mp hmem
        rcases List.mem_append.mp hkf with hl | hr
        · exact Or.inr hl
        · left
          simp at hr
          simp [hr, freshKeyframe]
  | some existing =>
      constructor
      · simp [addKeyframe, freshKeyframe, h]
      · intro kf hmem
        simp only [addKeyframe, h] at hmem
        rcases mem_replaceHit hmem with rfl | hl
        · exact Or.inl rfl
        · exact Or.inr hl

/-- Witness for C5 as amended: adding at time 42, beyond the default duration
10, stores exactly time 42. -/
theorem c5_amended_time_unclamped_witness :
    (addKeyframe "A" 1 42 [] []).1.time = 42 ∧
    ∀ kf ∈ (addKeyframe "A" 1 42 [] []).2, kf.time = 42 ∨ kf ∈ ([] : List Keyframe) :=
  c5_amended_time_unclamped "A" 1 42 [] []

theorem isHit_self {t : ℚ} {kf : Keyframe} (h : kf.time = t) : isHit t kf := by
  simp [isHit, h]

theorem sortByTime_perm (l : List Keyframe) : List.Perm (sortByTime l) l :=
  List.perm_insertionSort timeLE l

theorem sortByTime_pairwise (l : List Keyframe) : List.Pairwise timeLE (sortByTime l) :=
  List.sorted_insertionSort timeLE l

theorem addKeyframe_insert_fst {t : ℚ} {arr : List Keyframe}
    (h : findHit t arr = none) (oid : String) (nid : Nat) (p : Props) :
    (addKeyframe oid nid t p arr).1 = freshKeyframe oid nid t p := by
  simp [addKeyframe, h]

theorem addKeyframe_insert_snd {t : ℚ} {arr : List Keyframe}
    (h : findHit t arr = none) (oid : String) (nid : Nat) (p : Props) :
    (addKeyframe oid nid t p arr).2 = sortByTime (arr ++ [freshKeyframe oid nid t p]) := by
  simp [addKeyframe, h]

theorem addKeyframe_overwrite_fst {t : ℚ} {arr : List Keyframe} {existing : Keyframe}
    (h : findHit t arr = some existing) (oid : String) (nid : Nat) (p : Props) :
    (addKeyframe oid nid t p arr).1 =
      { freshKeyframe oid nid t p with id := existing.id } := by
  simp [addKeyframe, h]

theorem addKeyframe_overwrite_snd {t : ℚ} {arr : List Keyframe} {existing : Keyframe}
    (h : findHit t arr = some existing) (oid : String) (nid : Nat) (p : Props) :
    (addKeyframe oid nid t p arr).2 =
      replaceHit t { freshKeyframe oid nid t p with id := existing.id } arr := by
  simp [addKeyframe, h]

/-- Counterexample to C2: from the reachable state holding keyframes at times
0 and 0.015 (which are 0.015 apart, so both inserts succeed), adding twice at
time 0.008 with different property bags leaves TWO keyframes within epsilon
0.01 of 0.008, not exactly one: the overwritten keyframe at 0.008 and the
untouched keyframe at 0.015. -/
theorem c2_counterexample :
    ([("x", PropValue.num 1)] : Props) ≠ [("x", PropValue.num 2)] ∧
    countHits (8/1000)
      (addKeyframe "A" 4 (8/1000) [("x", PropValue.num 2)]
        (addKeyframe "A" 3 (8/1000) [("x", PropValue.num 1)]
          (runAdds "A" c2reqs [])).2).2 = 2 := by
  constructor
  · simp
  · norm_num [c2reqs, runAdds, addKeyframe, freshKeyframe, findHit, isHit, replaceHit,
      sortByTime, countHits, timeLE, abs_lt]

/-- C2 as amended: from any state in which at most one stored keyframe lies
within epsilon 0.01 of the time t, adding a keyframe at t twice with
different properties leaves exactly one keyframe within epsilon of t, holding
the second properties, with the id the first call returned. -/
theorem c2_amended_overwrite_idempotent (oid : String) (t : ℚ) (p1 p2 : Props)
    (id1 id2 : Nat) (arr : List Keyframe)
    (hcount : countHits t arr ≤ 1) (hneq : p1 ≠ p2) :
    countHits t (addKeyframe oid id2 t p2 (addKeyframe oid id1 t p1 arr).2).2 = 1 ∧
    (addKeyframe oid id2 t p2 (addKeyframe oid id1 t p1 arr).2).1.properties = p2 ∧
    (addKeyframe oid id2 t p2 (addKeyframe oid id1 t p1 arr).2).1.id
      = (addKeyframe oid id1 t p1 arr).1.id ∧
    ∀ kf ∈ (addKeyframe oid id2 t p2 (addKeyframe oid id1 t p1 arr).2).2,
      isHit t kf → kf = (addKeyframe oid id2 t p2 (addKeyframe oid id1 t p1 arr).2).1 := by
  cases h : findHit t arr with
  | none =>
      have hzero : ∀ kf ∈ arr, ¬ isHit t kf := (findHit_eq_none_iff t arr).mp h
      rw [addKeyframe_insert_fst h, addKeyframe_insert_snd h]
      have hfhit : isHit t (freshKeyframe oid id1 t p1) := isHit_self rfl
      have hperm := sortByTime_perm (arr ++ [freshKeyframe oid id1 t p1])
      have hmemA : freshKeyframe oid id1 t p1
          ∈ sortByTime (arr ++ [freshKeyframe oid id1 t p1]) :=
        hperm.mem_iff.mpr (List.mem_append.mpr (Or.inr (List.mem_singleton.mpr rfl)))
      have huniqA : ∀ kf ∈ sortByTime (arr ++ [freshKeyframe oid id1 t p1]),
          isHit t kf → kf = freshKeyframe oid id1 t p1 := by
        intro kf hm hh
        rcases List.mem_append.mp (hperm.mem_iff.mp hm) with hl | hr
        · exact absurd hh (hzero kf hl)
        · simpa using hr
      have hcountA : countHits t (sortByTime (arr ++ [freshKeyframe oid id1 t p1])) = 1 := by
        rw [countHits_perm hperm, countHits_append]
        have h0 : countHits t arr = 0 := (countHits_eq_zero_iff t arr).mpr hzero
        simp [h0, countHits, hfhit]
      have hfindA : findHit t (sortByTime (arr ++ [freshKeyframe oid id1 t p1]))
          = some (freshKeyframe oid id1 t p1) :=
        findHit_of_unique hmemA hfhit huniqA
      rw [addKeyframe_overwrite_fst hfindA, addKeyframe_overwrite_snd hfindA]
      refine ⟨?_, rfl, rfl, ?_⟩
      · rw [countHits_replaceHit hfindA (isHit_self rfl)]
        exact hcountA
      · exact replaceHit_hits_eq (le_of_eq hcountA)
  | some old =>
      have hold_hit : isHit t old := findHit_isHit h
      have hold_mem : old ∈ arr := findHit_mem h
      have hcount1 : countHits t arr = 1 :=
        le_antisymm hcount (countHits_pos hold_mem hold_hit)
      rw [addKeyframe_overwrite_fst h, addKeyframe_overwrite_snd h]
      have hm1hit : isHit t ({ freshKeyframe oid id1 t p1 with id := old.id } : Keyframe) :=
        isHit_self rfl
      have hmemA : ({ freshKeyframe oid id1 t p1 with id := old.id } : Keyframe)
          ∈ replaceHit t { freshKeyframe oid id1 t p1 with id := old.id } arr :=
        mem_replaceHit_self h
      have huniqA := replaceHit_hits_eq
        (l := arr) (v := { freshKeyframe oid id1 t p1 with id := old.id }) hcount
      have hcountA : countHits t
          (replaceHit t { freshKeyframe oid id1 t p1 with id := old.id } arr) = 1 :=
        (countHits_replaceHit h hm1hit).trans hcount1
      have hfindA : findHit t
          (replaceHit t { freshKeyframe oid id1 t p1 with id := old.id } arr)
          = some { freshKeyframe oid id1 t p1 with id := old.id } :=
        findHit_of_unique hmemA hm1hit huniqA
      rw [addKeyframe_overwrite_fst hfindA, addKeyframe_overwrite_snd hfindA]
      refine ⟨?_, rfl, rfl, ?_⟩
      · rw [countHits_replaceHit hfindA (isHit_self rfl)]
        exact hcountA
      · exact replaceHit_hits_eq (le_of_eq hcountA)

/-- Witness for C2 as amended: on an empty store, adding at time 2 with x = 1
and then x = 2 leaves exactly one keyframe near 2, holding x = 2, with the id
of the first call. -/
theorem c2_amended_overwrite_idempotent_witness :
    countHits 2 (addKeyframe "A" 2 2 [("x", PropValue.num 2)]
      (addKeyframe "A" 1 2 [("x", PropValue.num 1)] []).2).2 = 1 ∧
    (addKeyframe "A" 2 2 [("x", PropValue.num 2)]
      (addKeyframe "A" 1 2 [("x", PropValue.num 1)] []).2).1.properties
      = [("x", PropValue.num 2)] ∧
    (addKeyframe "A" 2 2 [("x", PropValue.num 2)]
      (addKeyframe "A" 1 2 [("x", PropValue.num 1)] []).2).1.id
      = (addKeyframe "A" 1 2 [("x", PropValue.num 1)] []).1.id ∧
    ∀ kf ∈ (addKeyframe "A" 2 2 [("x", PropValue.num 2)]
      (addKeyframe "A" 1 2 [("x", PropValue.num 1)] []).2).2,
      isHit 2 kf → kf = (addKeyframe "A" 2 2 [("x", PropValue.num 2)]
        (addKeyframe "A" 1 2 [("x", PropValue.num 1)] []).2).1 :=
  c2_amended_overwrite_idempotent "A" 2 [("x", PropValue.num 1)] [("x", PropValue.num 2)]
    1 2 [] (by norm_num [countHits]) (by simp)

/-- Counterexample to C3: after the four addKeyframe calls of c3reqs the
stored keyframe times are 0.0155 followed by 0.015, which is not strictly
ascending: overwrites within epsilon move a keyframe's time without
re-sorting the array. -/
theorem c3_counterexample :
    (runAdds "A" c3reqs []).map Keyframe.time = [155/10000, 15/1000] ∧
    ¬ List.Pairwise (· < ·) ((runAdds "A" c3reqs []).map Keyframe.time) := by
  have hlist : (runAdds "A" c3reqs []).map Keyframe.time = [155/10000, 15/1000] := by
    norm_num [c3reqs, runAdds, addKeyframe, freshKeyframe, findHit, isHit, replaceHit,
      sortByTime, timeLE, abs_lt]
  refine ⟨hlist, ?_⟩
  rw [hlist]
  intro hp
  rcases List.pairwise_cons.mp hp with ⟨hlt, _⟩
  have := hlt (15/1000) (List.mem_singleton.mpr rfl)
  norm_num at this

theorem runAdds_invariant (oid : String) (reqs : List AddReq) :
    ∀ arr : List Keyframe,
      List.Pairwise timeLE arr →
      List.Pairwise (fun a b : Keyframe => 1/100 ≤ |a.time - b.time|) arr →
      (∀ kf ∈ arr, ∀ r ∈ reqs, 1/100 ≤ |kf.time - r.time|) →
      List.Pairwise (fun r1 r2 : AddReq => 1/100 ≤ |r1.time - r2.time|) reqs →
      List.Pairwise timeLE (runAdds oid reqs arr) ∧
      List.Pairwise (fun a b : Keyframe => 1/100 ≤ |a.time - b.time|) (runAdds oid reqs arr) := by
  induction reqs with
  | nil => exact fun arr h1 h2 _ _ => ⟨h1, h2⟩
  | cons r rest ih =>
      intro arr h1 h2 hcross hreqs
      have hnone : findHit r.time arr = none := by
        refine (findHit_eq_none_iff _ _).mpr fun kf hm => ?_
        exact not_lt.mpr (hcross kf hm r (List.mem_cons_self r rest))
      have hsymm : ∀ {x y : Keyframe},
          1/100 ≤ |x.time - y.time| → 1/100 ≤ |y.time - x.time| := by
        intro x y hxy
        rwa [abs_sub_comm]
      have hperm := sortByTime_perm
        (arr ++ [freshKeyframe oid r.newId r.time r.properties])
      simp only [runAdds, addKeyframe_insert_snd hnone]
      refine ih (sortByTime (arr ++ [freshKeyframe oid r.newId r.time r.properties]))
        (sortByTime_pairwise _) ?_ ?_ (List.pairwise_cons.mp hreqs).2
      · refine (List.Perm.pairwise_iff hsymm hperm).mpr ?_
        refine List.pairwise_append.mpr ⟨h2, List.pairwise_singleton _ _, ?_⟩
        intro a ha b hb
        rw [List.mem_singleton.mp hb]
        exact hcross a ha r (List.mem_cons_self r rest)
      · intro kf hm q hq
        rcases List.mem_append.mp (hperm.mem_iff.mp hm) with hl | hr
        · exact hcross kf hl q (List.mem_cons_of_mem r hq)
        · rw [List.mem_singleton.mp hr]
          exact (List.pairwise_cons.mp hreqs).1 q hq

/-- C3 as amended: for every sequence of addKeyframe calls on a single object
whose requested times are pairwise at least epsilon 0.01 apart (so every call
inserts rather than overwriting), the stored keyframes that
getKeyframesForObject returns are in strictly ascending time order. -/
theorem c3_amended_sorted_of_separated (oid : String) (reqs : List AddReq)
    (hsep : List.Pairwise (fun r1 r2 : AddReq => 1/100 ≤ |r1.time - r2.time|) reqs) :
    List.Pairwise (· < ·) ((runAdds oid reqs []).map Keyframe.time) := by
  obtain ⟨hs, hd⟩ := runAdds_invariant oid reqs []
    (List.Pairwise.nil) (List.Pairwise.nil) (by simp) hsep
  rw [List.pairwise_map]
  refine (hs.and hd).imp ?_
  intro a b hab
  refine lt_of_le_of_ne hab.1 fun he => ?_
  have := hab.2
  rw [he, sub_self, abs_zero] at this
  norm_num at this

/-- Witness for C3 as amended: two adds at the separated times 5 and 0 yield
the strictly ascending stored times 0 then 5. -/
theorem c3_amended_sorted_of_separated_witness :
    List.Pairwise (· < ·)
      ((runAdds "A"
        [{ newId := 1, time := 5, properties := [] },
         { newId := 2, time := 0, properties := [] }] []).map Keyframe.time) :=
  c3_amended_sorted_of_separated "A" _ (by
    refine List.pairwise_cons.mpr ⟨?_, List.pairwise_singleton _ _⟩
    intro r hr
    rw [List.mem_singleton.mp hr]
    calc (1/100 : ℚ) ≤ 5 - 0 := by norm_num
    _ ≤ |(5 : ℚ) - 0| := le_abs_self _)

/-- C4: with keyframes at time 0 holding x = 0 and time 5 holding x = 100,
every query at or before 0 returns the bag with x = 0 and every query at or
after 5 returns the bag with x = 100: clamp-hold, no extrapolation outside
the keyframe range. -/
theorem c4_clamp_hold_outside_range (a b : Keyframe) (ha : a.time = 0)
    (hap : a.properties = [("x", PropValue.num 0)]) (hb : b.time = 5)
    (hbp : b.properties = [("x", PropValue.num 100)]) (t : ℚ) :
    (t ≤ 0 → getObjectStateAtTime [a, b] t = some [("x", PropValue.num 0)]) ∧
    (5 ≤ t → getObjectStateAtTime [a, b] t = some [("x", PropValue.num 100)]) := by
  constructor
  · intro ht
    simp [getObjectStateAtTime, lastD, ha, hap, ht]
  · intro ht
    have h1 : ¬ t ≤ (0 : ℚ) := by linarith
    simp [getObjectStateAtTime, lastD, ha, hb, hbp, h1, ge_iff_le, ht]

/-- Witness for C4: at the concrete query times -1 and 10 the held values are
0 and 100. -/
theorem c4_clamp_hold_outside_range_witness :
    getObjectStateAtTime [kfB0, kfB5] (-1) = some [("x", PropValue.num 0)] ∧
    getObjectStateAtTime [kfB0, kfB5] 10 = some [("x", PropValue.num 100)] :=
  ⟨(c4_clamp_hold_outside_range kfB0 kfB5 rfl rfl rfl rfl (-1)).1 (by norm_num),
   (c4_clamp_hold_outside_range kfB0 kfB5 rfl rfl rfl rfl 10).2 (by norm_num)⟩

theorem lookupProp_append_none {l1 l2 : Props} {k : String}
    (h : lookupProp l1 k = none) : lookupProp (l1 ++ l2) k = lookupProp l2 k := by
  induction l1 with
  | nil => rfl
  | cons p rest ih =>
      obtain ⟨k2, v⟩ := p
      by_cases hk : k2 = k
      · simp [lookupProp, hk] at h
      · simp only [lookupProp, hk, if_false] at h
        simp only [List.cons_append, lookupProp, hk, if_false]
        exact ih h

theorem lookupProp_map_value_none {sp : Props} {k : String}
    (f : String × PropValue → PropValue) (h : lookupProp sp k = none) :
    lookupProp (sp.map (fun p => (p.1, f p))) k = none := by
  induction sp with
  | nil => rfl
  | cons p rest ih =>
      obtain ⟨k2, v⟩ := p
      by_cases hk : k2 = k
      · simp [lookupProp, hk] at h
      · simp only [lookupProp, hk, if_false] at h
        simp only [List.map_cons, lookupProp, hk, if_false]
        exact ih h

theorem lookupProp_filter_of_not_contains {ep sp : Props} {k : String}
    (h : containsKey sp k = false) :
    lookupProp (ep.filter (fun q => !(containsKey sp q.1))) k = lookupProp ep k := by
  induction ep with
  | nil => rfl
  | cons q rest ih =>
      obtain ⟨k2, v⟩ := q
      by_cases hk : k2 = k
      · subst hk
        simp [List.filter_cons, h, lookupProp]
      · by_cases hq : containsKey sp k2
        · simp [List.filter_cons, hq, ih, lookupProp, hk]
        · have hq2 : containsKey sp k2 = false := by simpa using hq
          simp only [List.filter_cons, hq2, Bool.not_false, if_true, lookupProp,
            hk, if_false]
          exact ih

theorem lookup_interpolate_end_only {sp ep : Props} {k : String}
    (h : lookupProp sp k = none) (progress : ℚ) (easingType : String) :
    lookupProp (interpolateProperties sp ep progress easingType) k
      = lookupProp ep k := by
  have hc : containsKey sp k = false := by simp [containsKey, h]
  simp only [interpolateProperties]
  rw [lookupProp_append_none (lookupProp_map_value_none _ h),
    lookupProp_filter_of_not_contains hc]

/-- Counterexample to C9: with start keyframe at time 0 holding only x and end
keyframe at time 2 holding x and the end-only key y, the query at time 1,
strictly between the pair, returns a bag that CONTAINS y with the end value
5: end-only keys are passed through, not omitted. -/
theorem c9_counterexample :
    getObjectStateAtTime [kfE0, kfE2] 1
      = some [("x", PropValue.num 50), ("y", PropValue.num 5)] ∧
    lookupProp [("x", PropValue.num 50), ("y", PropValue.num 5)] "y"
      = some (PropValue.num 5) := by
  constructor
  · norm_num [getObjectStateAtTime, findBracket, lastD, interpolateProperties, interpValue,
      jsGet, lookupProp, containsKey, applyEasing, kfE0, kfE2]
    decide
  · norm_num [lookupProp]
    decide

/-- C9 as amended: at every query time strictly between a bracketing keyframe
pair, every property key present only in the end keyframe's properties is
included in the returned bag, passed through with the end keyframe's value
(retroactive pass-through rather than appearing only at the end time). -/
theorem c9_amended_end_only_passthrough (a b : Keyframe) (t : ℚ) (k : String)
    (hab : a.time < t) (htb : t < b.time)
    (hk : lookupProp a.properties k = none) :
    ∃ bag, getObjectStateAtTime [a, b] t = some bag ∧
      lookupProp bag k = lookupProp b.properties k := by
  have h1 : ¬ t ≤ a.time := not_le.mpr hab
  have h2 : ¬ t ≥ b.time := not_le.mpr htb
  have hfb : findBracket [a, b] t = some (a, b) := by
    simp [findBracket, le_of_lt hab, le_of_lt htb]
  simp only [getObjectStateAtTime, lastD, if_neg h1, if_neg h2, hfb]
  exact ⟨_, rfl, lookup_interpolate_end_only hk _ _⟩

/-- Witness for C9 as amended: at query time 1, between the keyframes of the
C9 scenario, the end-only key y resolves to the end value 5. -/
theorem c9_amended_end_only_passthrough_witness :
    ∃ bag, getObjectStateAtTime [kfE0, kfE2] 1 = some bag ∧
      lookupProp bag "y" = lookupProp kfE2.properties "y" :=
  c9_amended_end_only_passthrough kfE0 kfE2 1 "y" (by norm_num [kfE0])
    (by norm_num [kfE2]) (by decide)

theorem mapSet_of_not_mem {α : Type} (k : String) (v : α) (m : List (String × α))
    (h : k ∉ m.map Prod.fst) : mapSet k v m = m ++ [(k, v)] := by
  induction m with
  | nil => rfl
  | cons kv rest ih =>
      obtain ⟨k2, v2⟩ := kv
      simp only [List.map_cons, List.mem_cons] at h
      push_neg at h
      simp only [mapSet, List.cons_append]
      rw [if_neg (fun he => h.1 he.symm), ih h.2]

theorem foldl_mapSet_append {α : Type} (l : List (String × α)) :
    ∀ acc : List (String × α), (l.map Prod.fst).Nodup →
      (∀ k ∈ l.map Prod.fst, k ∉ acc.map Prod.fst) →
      l.foldl (fun m kv => mapSet kv.1 kv.2 m) acc = acc ++ l := by
  induction l with
  | nil => intro acc _ _; simp
  | cons kv rest ih =>
      intro acc hnd hdisj
      rw [List.map_cons, List.nodup_cons] at hnd
      have hdisj2 : ∀ k ∈ rest.map Prod.fst, k ∉ (acc ++ [kv]).map Prod.fst := by
        intro k hk
        rw [List.map_append, List.mem_append]
        push_neg
        have hnotkv : k ∉ ([kv] : List (String × α)).map Prod.fst := by
          simp only [List.map_cons, List.map_nil, List.mem_singleton]
          intro he
          exact hnd.1 (he ▸ hk)
        exact ⟨hdisj k (by rw [List.map_cons]; exact List.mem_cons_of_mem _ hk), hnotkv⟩
      simp only [List.foldl_cons]
      rw [mapSet_of_not_mem _ _ _ (hdisj kv.1 (by simp))]
      rw [ih (acc ++ [kv]) hnd.2 hdisj2]
      simp

theorem foldl_mapSet_nil {α : Type} (l : List (String × α))
    (h : (l.map Prod.fst).Nodup) :
    l.foldl (fun m kv => mapSet kv.1 kv.2 m) [] = l := by
  simpa using foldl_mapSet_append l [] h (by simp)

/-- C6: importing an exported timeline state reproduces the identical tracks
and keyframes entries, keeps duration and fps, and resets the current time to
0, for every state whose duration and fps are nonzero (all reachable states:
setDuration enforces at least 0.1 and setFPS at least 1) and whose Map
entries have distinct keys (an invariant of JS Maps). -/
theorem c6_export_import_roundtrip (s : TimelineState)
    (hd : s.duration ≠ 0) (hf : s.fps ≠ 0)
    (ht : (s.tracks.map Prod.fst).Nodup) (hk : (s.keyframes.map Prod.fst).Nodup) :
    importTimelineData s (exportTimelineData s) = { s with currentTime := 0 } := by
  simp [importTimelineData, exportTimelineData, hd, hf,
    foldl_mapSet_nil _ ht, foldl_mapSet_nil _ hk]

/-- Witness for C6: the round trip on the concrete state with one track and
two keyframes reproduces it with the current time reset from 3 to 0. -/
theorem c6_export_import_roundtrip_witness :
    importTimelineData c6state (exportTimelineData c6state)
      = { c6state with currentTime := 0 } :=
  c6_export_import_roundtrip c6state (by norm_num [c6state]) (by norm_num [c6state])
    (by simp [c6state]) (by simp [c6state])

theorem engineSetCurrentTime_isPlaying (s : EngineState) (t : ℚ) :
    (engineSetCurrentTime s t).isPlaying = s.isPlaying := rfl

theorem engineSetCurrentTime_isPaused (s : EngineState) (t : ℚ) :
    (engineSetCurrentTime s t).isPaused = s.isPaused := rfl

theorem engineSetCurrentTime_duration (s : EngineState) (t : ℚ) :
    (engineSetCurrentTime s t).duration = s.duration := rfl

theorem engineSetCurrentTime_playbackStartTime (s : EngineState) (t : ℚ) :
    (engineSetCurrentTime s t).playbackStartTime = s.playbackStartTime := rfl

theorem engineSetCurrentTime_zero (s : EngineState) :
    (engineSetCurrentTime s 0).currentTime = 0 := by
  have hz : max 0 (min s.duration 0) = 0 := max_eq_left (min_le_right _ _)
  simp [engineSetCurrentTime, timelineSetCurrentTime, hz]

theorem engineSetCurrentTime_restore {s : EngineState} {t : ℚ}
    (h0 : 0 ≤ t) (h1 : t ≤ s.duration) :
    (engineSetCurrentTime s t).currentTime = t := by
  have hmin : min s.duration t = t := min_eq_right h1
  simp [engineSetCurrentTime, timelineSetCurrentTime, hmin, max_eq_right h0]

theorem updateFPSCounter_currentTime (s : EngineState) (now : ℚ) :
    (updateFPSCounter s now).currentTime = s.currentTime := by
  simp only [updateFPSCounter]
  split <;> rfl

theorem updateFPSCounter_playbackStartTime (s : EngineState) (now : ℚ) :
    (updateFPSCounter s now).playbackStartTime = s.playbackStartTime := by
  simp only [updateFPSCounter]
  split <;> rfl

/-- C7: on a playback tick whose computed elapsed timeline time reaches or
exceeds the duration while loop is enabled, the timeline is reset to current
time exactly 0 (not to the elapsed overshoot modulo the duration) and the
playback epoch origin is reset to the current wall-clock reading. -/
theorem c7_loop_resets_to_zero (s : EngineState) (now : ℚ)
    (hp : s.isPlaying = true) (hl : s.loop = true)
    (he : (now - s.playbackStartTime) * s.playbackSpeed / 1000 ≥ s.duration) :
    (animationLoop s now).currentTime = 0 ∧
    (animationLoop s now).playbackStartTime = now := by
  simp only [animationLoop, hp, hl, Bool.not_true, Bool.false_eq_true, if_false,
    if_pos he, if_true]
  constructor
  · rw [updateFPSCounter_currentTime]
    exact engineSetCurrentTime_zero _
  · rw [updateFPSCounter_playbackStartTime, engineSetCurrentTime_playbackStartTime]

/-- Witness for C7: with duration 5, speed 1 and epoch 0, the tick at
wall-clock 5200 computes elapsed 5.2, at least the duration, and resets the
current time to exactly 0, not 0.2, with the epoch moved to 5200. -/
theorem c7_loop_resets_to_zero_witness :
    ((animationLoop c7state 5200).currentTime = 0 ∧
      (animationLoop c7state 5200).playbackStartTime = 5200) ∧
    (0 : ℚ) ≠ 2/10 :=
  ⟨c7_loop_resets_to_zero c7state 5200 rfl rfl (by norm_num [c7state]),
   by norm_num⟩

theorem exportLoop_preserves (capture : Nat → ℚ → Except String String)
    (startTime frameTime : ℚ) :
    ∀ (n i : Nat) (s : EngineState) (acc : List Frame),
      (exportLoop capture startTime frameTime n i s acc).1.isPlaying = s.isPlaying ∧
      (exportLoop capture startTime frameTime n i s acc).1.isPaused = s.isPaused ∧
      (exportLoop capture startTime frameTime n i s acc).1.duration = s.duration := by
  intro n
  induction n with
  | zero => intro i s acc; exact ⟨rfl, rfl, rfl⟩
  | succ n ih =>
      intro i s acc
      simp only [exportLoop]
      cases capture i (startTime + i * frameTime) with
      | ok d =>
          simpa [engineSetCurrentTime_isPlaying, engineSetCurrentTime_isPaused,
            engineSetCurrentTime_duration]
            using ih (i + 1) (engineSetCurrentTime s (startTime + i * frameTime))
              (acc ++ [{ time := startTime + i * frameTime, frame := i, data := d }])
      | error e => exact ⟨rfl, rfl, rfl⟩

theorem exportFinally_restores (s s1 : EngineState) (now : ℚ)
    (h0 : 0 ≤ s.currentTime) (h1 : s.currentTime ≤ s.duration)
    (hpp : s.isPlaying = true → s.isPaused = false)
    (hd : s1.duration = s.duration)
    (hP : s1.isPlaying = (if s.isPlaying then enginePause s else s).isPlaying)
    (hQ : s1.isPaused = (if s.isPlaying then enginePause s else s).isPaused) :
    (exportFinally s.isPlaying s.currentTime now s1).currentTime = s.currentTime ∧
    (exportFinally s.isPlaying s.currentTime now s1).isPlaying = s.isPlaying ∧
    (exportFinally s.isPlaying s.currentTime now s1).isPaused = s.isPaused := by
  have h1d : s.currentTime ≤ s1.duration := le_of_le_of_eq h1 hd.symm
  cases hw : s.isPlaying with
  | false =>
      rw [hw] at hP hQ
      simp only [Bool.false_eq_true, if_false] at hP hQ
      simp only [exportFinally, Bool.false_eq_true, if_false]
      exact ⟨engineSetCurrentTime_restore h0 h1d,
        (engineSetCurrentTime_isPlaying s1 _).trans (hP.trans hw),
        (engineSetCurrentTime_isPaused s1 _).trans hQ⟩
  | true =>
      have hpaused : s.isPaused = false := hpp hw
      rw [hw] at hP hQ
      simp only [if_true, enginePause, hw, Bool.not_true, Bool.false_eq_true,
        if_false] at hP hQ
      have hs2p : (engineSetCurrentTime s1 s.currentTime).isPlaying = false := by
        rw [engineSetCurrentTime_isPlaying]; exact hP
      have hres : exportFinally true s.currentTime now s1
          = enginePlay (engineSetCurrentTime s1 s.currentTime) now := by
        simp only [exportFinally, if_true]
      have e1 : (enginePlay (engineSetCurrentTime s1 s.currentTime) now).currentTime
          = (engineSetCurrentTime s1 s.currentTime).currentTime := by
        simp [enginePlay, hs2p]
      have e2 : (enginePlay (engineSetCurrentTime s1 s.currentTime) now).isPlaying
          = true := by
        simp [enginePlay, hs2p]
      have e3 : (enginePlay (engineSetCurrentTime s1 s.currentTime) now).isPaused
          = false := by
        simp [enginePlay, hs2p]
      rw [hres]
      exact ⟨e1.trans (engineSetCurrentTime_restore h0 h1d), e2,
        e3.trans hpaused.symm⟩

/-- C8: a frame-export pass over any range restores, in its finally block, the
timeline's current time and the playing/paused playback state to their values
from before the pass, whether the frame loop ran to completion or a frame
capture failed mid-pass; the hypotheses confine the starting state to the
reachable ones, in which the current time is already clamped to the duration
and a playing engine is not paused. -/
theorem c8_export_restores_state (capture : Nat → ℚ → Except String String)
    (startTime endTime fps now : ℚ) (s : EngineState)
    (h0 : 0 ≤ s.currentTime) (h1 : s.currentTime ≤ s.duration)
    (hpp : s.isPlaying = true → s.isPaused = false) :
    (exportFrames capture startTime endTime fps now s).1.currentTime = s.currentTime ∧
    (exportFrames capture startTime endTime fps now s).1.isPlaying = s.isPlaying ∧
    (exportFrames capture startTime endTime fps now s).1.isPaused = s.isPaused := by
  obtain ⟨hp, hq, hd⟩ := exportLoop_preserves capture startTime (1 / fps)
    ((Int.ceil ((endTime - startTime) * fps)).toNat) 0
    (if s.isPlaying then enginePause s else s) []
  have hd2 : (if s.isPlaying then enginePause s else s).duration = s.duration := by
    cases hw : s.isPlaying <;> simp [enginePause, hw]
  exact exportFinally_restores s _ now h0 h1 hpp (hd.trans hd2) hp hq

/-- Witness for C8: from the playing state with current time 3, an export pass
over the range 0 to 1 at 2 fps whose capture fails on frame 1 still ends with
current time 3, playing true and paused false. -/
theorem c8_export_restores_state_witness :
    (exportFrames c8capture 0 1 2 999 c8state).1.currentTime = c8state.currentTime ∧
    (exportFrames c8capture 0 1 2 999 c8state).1.isPlaying = c8state.isPlaying ∧
    (exportFrames c8capture 0 1 2 999 c8state).1.isPaused = c8state.isPaused :=
  c8_export_restores_state c8capture 0 1 2 999 c8state (by norm_num [c8state])
    (by norm_num [c8state]) (fun _ => rfl)
